import Mathlib

/-!
Verification of the batch data-processing pipeline in
`src/samples/data_processor.py` (class `DataProcessor`), shallowly embedded
in Lean 4.  Python floats are modelled as exact rationals (`ℚ`), dictionaries
as ordered association lists with Python's overwrite-or-append assignment
semantics, and `round(x, 2)` as round-half-to-even at two decimal places.
The asyncio batch deadline is modelled by a boolean `timedOut` oracle: the
source's `asyncio.wait_for` raises `TimeoutError` exactly when the deadline
elapses first, and the two branches of `process_batch` are embedded as the
two values of the oracle.  Since the per-record coroutines touch disjoint
state (each unit mutates only its own record, and the statistics counters
are updated after the `gather` completes), the interleaving order of the
concurrent units does not affect any observable claimed here, so each unit
is embedded as a pure function of its record.
-/

namespace DataProcessorSpec

/-- `Status` enumeration of `data_processor.py`. -/
inductive Status where
  | pending
  | processing
  | completed
  | failed
deriving DecidableEq, Repr

/-- A value stored in a record's `metadata` dictionary (`Dict[str, Any]`):
the pipeline steps only ever store booleans, strings and numbers. -/
inductive MetaVal where
  | bool (b : Bool)
  | str (s : String)
  | num (q : ℚ)
deriving DecidableEq, Repr

/-- The `DataRecord` dataclass: `value` is a Python float, modelled as `ℚ`;
`metadata` is an insertion-ordered dictionary; `timestamp` is abstracted to
a rational (no claim inspects it). -/
structure DataRecord where
  id : String
  timestamp : ℚ
  value : ℚ
  metadata : List (String × MetaVal)
  status : Status
  tags : List String
deriving DecidableEq, Repr

/-- Python dictionary assignment `d[k] = v`: overwrite in place when the key
is present (keeping its position), append at the end otherwise. -/
def dictSet (m : List (String × MetaVal)) (k : String) (v : MetaVal) :
    List (String × MetaVal) :=
  if m.any (fun p => p.1 = k) then
    m.map (fun p => if p.1 = k then (k, v) else p)
  else m ++ [(k, v)]

/-- Dictionary read `d[k]` (first binding wins, as in a Python dict where
keys are unique). -/
def dictGet : List (String × MetaVal) → String → Option MetaVal
  | [], _ => none
  | (k0, v0) :: rest, k => if k0 = k then some v0 else dictGet rest k

/-- The `validation_rules` sub-dictionary of the configuration. -/
structure ValidationRules where
  min_value : ℚ
  max_value : ℚ
  required_tags : List String
deriving DecidableEq, Repr

/-- The configuration dictionary built by `_load_config`. -/
structure Config where
  batch_size : ℕ
  timeout : ℚ
  validation_rules : ValidationRules
  processing_steps : List String
deriving DecidableEq, Repr

/-- `default_config` of `_load_config`. -/
def default_config : Config :=
  { batch_size := 100
    timeout := 30
    validation_rules :=
      { min_value := 0
        max_value := 1000
        required_tags := ["source", "type"] }
    processing_steps := ["validate", "normalize", "categorize", "enrich"] }

/-- The exceptions a pipeline step can raise (`ValueError` in the source,
with the two message shapes of `_validate_record`). -/
inductive StepError where
  | valueOutOfRange (value : ℚ)
  | missingRequiredTags (missing : List String)
deriving DecidableEq, Repr

/-- `DataProcessor._validate_record`: raises when `value` is outside
`[min_value, max_value]` or some required tag is absent; returns the record
unchanged otherwise. -/
def validate_record (cfg : Config) (r : DataRecord) : Except StepError DataRecord :=
  let rules := cfg.validation_rules
  if ¬ (rules.min_value ≤ r.value ∧ r.value ≤ rules.max_value) then
    Except.error (StepError.valueOutOfRange r.value)
  else if ¬ (rules.required_tags.all fun tag => r.tags.contains tag) then
    Except.error (StepError.missingRequiredTags
      (rules.required_tags.filter fun tag => ¬ r.tags.contains tag))
  else
    Except.ok r

/-- Round-half-to-even to an integer: the semantics of Python's builtin
`round` on exact values. -/
def roundHalfEven (q : ℚ) : ℤ :=
  if q - q.floor < 1/2 then q.floor
  else if 1/2 < q - q.floor then q.floor + 1
  else if q.floor % 2 = 0 then q.floor else q.floor + 1

/-- Python `round(x, 2)`. -/
def round2 (q : ℚ) : ℚ :=
  (roundHalfEven (q * 100) : ℚ) / 100

/-- `DataProcessor._normalize_value`: rescales values above 100 and flags
`metadata["normalized"] = True`. -/
def normalize_value (r : DataRecord) : DataRecord :=
  let r :=
    if r.value > 100 then
      { r with value := round2 (100 * (1 + (r.value - 100) / 900)) }
    else r
  { r with metadata := dictSet r.metadata "normalized" (MetaVal.bool true) }

/-- The category name `_categorize_value` picks for a value. -/
def categoryOf (v : ℚ) : String :=
  if v < 30 then "low"
  else if v < 70 then "medium"
  else "high"

/-- `DataProcessor._categorize_value`: stores the category in metadata and
appends a `category:<name>` tag. -/
def categorize_value (r : DataRecord) : DataRecord :=
  let category := categoryOf r.value
  { r with
      metadata := dictSet r.metadata "category" (MetaVal.str category)
      tags := r.tags ++ ["category:" ++ category] }

/-- `DataProcessor._enrich_metadata`: `nowIso` stands for
`datetime.now().isoformat()`, threaded in as a parameter to keep the
embedding deterministic. -/
def enrich_metadata (nowIso : String) (r : DataRecord) : DataRecord :=
  { r with
      metadata :=
        dictSet
          (dictSet
            (dictSet r.metadata "processing_time" (MetaVal.str nowIso))
            "pipeline_version" (MetaVal.str "2.1.0"))
          "quality_score" (MetaVal.num (min 100 (r.value * (6/5)))) }

/-- The `self.processors` registry: step name to transformation.  Only
`validate` can raise; the other steps always return `Except.ok`. -/
def processors (name : String) :
    Option (Config → String → DataRecord → Except StepError DataRecord) :=
  if name = "normalize" then some (fun _ _ r => Except.ok (normalize_value r))
  else if name = "categorize" then some (fun _ _ r => Except.ok (categorize_value r))
  else if name = "validate" then some (fun cfg _ r => validate_record cfg r)
  else if name = "enrich" then some (fun _ nowIso r => Except.ok (enrich_metadata nowIso r))
  else none

/-- The step loop of `_process_single_record`: apply each resolvable step in
order, skipping names absent from the registry, stopping at the first raise
(the `raise` in the `except` clause re-raises to the caller).  `validate` is
the only step that can raise, and it raises before mutating anything, so the
record paired with the error is exactly the in-place state of the Python
record at the point of the raise. -/
def runSteps (cfg : Config) (nowIso : String) :
    List String → DataRecord → DataRecord × Option StepError
  | [], r => (r, none)
  | name :: rest, r =>
    match processors name with
    | none => runSteps cfg nowIso rest r
    | some p =>
      match p cfg nowIso r with
      | Except.ok r2 => runSteps cfg nowIso rest r2
      | Except.error e => (r, some e)

/-- `DataProcessor._process_single_record`: status goes to `processing`, the
configured steps run in order, and on success the status becomes `completed`.
The returned pair is (final in-place state of the record, raised exception if
any); the coroutine's return value is the first component when the second is
`none`. -/
def process_single_record (cfg : Config) (nowIso : String) (r : DataRecord) :
    DataRecord × Option StepError :=
  let r1 : DataRecord := { r with status := Status.processing }
  match runSteps cfg nowIso cfg.processing_steps r1 with
  | (r2, none) => ({ r2 with status := Status.completed }, none)
  | (r2, some e) => (r2, some e)

/-- The mutable statistics counters of `self._stats` (`start_time` is kept
outside, as the runtime only feeds the derived rates). -/
structure Stats where
  processed : ℕ
  failed : ℕ
deriving DecidableEq, Repr

/-- The result loop of `process_batch` (the `for i, result in
enumerate(results)` loop): each exceptional result increments `failed`, each
successful one increments `processed` and is appended to the output. -/
def collectResults (stats : Stats) :
    List (DataRecord × Option StepError) → Stats × List DataRecord
  | [] => (stats, [])
  | (r, none) :: rest =>
    let acc := collectResults { stats with processed := stats.processed + 1 } rest
    (acc.1, r :: acc.2)
  | (_, some _) :: rest =>
    collectResults { stats with failed := stats.failed + 1 } rest

/-- `DataProcessor.process_batch`.  `timedOut` is true exactly when
`asyncio.wait_for` raises `asyncio.TimeoutError`, i.e. when the gathered
units do not all finish before `config['timeout']`; in that case the
`except` clause returns `[]` without running the result loop.  Otherwise
every unit's outcome is classified by `collectResults`. -/
def process_batch (cfg : Config) (nowIso : String) (timedOut : Bool)
    (stats : Stats) (records : List DataRecord) : Stats × List DataRecord :=
  if timedOut then (stats, [])
  else collectResults stats (records.map (process_single_record cfg nowIso))

/-- The in-place state of the caller's records after a `process_batch` call
that beat the deadline: a unit that raised leaves its record marked
`Status.failed` by the result loop (`records[i].status = Status.FAILED`);
a unit that finished leaves its record in the completed state. -/
def batch_records_after (cfg : Config) (nowIso : String)
    (records : List DataRecord) : List DataRecord :=
  records.map fun r =>
    match process_single_record cfg nowIso r with
    | (r2, none) => r2
    | (r2, some _) => { r2 with status := Status.failed }

/-- `records_per_second` of `get_statistics`, as a function of the counters
and the elapsed runtime in seconds. -/
def records_per_second (stats : Stats) (runtimeSeconds : ℚ) : ℚ :=
  (stats.processed : ℚ) / max runtimeSeconds 1

/-- `success_rate` of `get_statistics`. -/
def success_rate (stats : Stats) : ℚ :=
  (stats.processed : ℚ) / max ((stats.processed : ℚ) + (stats.failed : ℚ)) 1

/-! Helper lemmas. -/

lemma rat_floor_eq_floor (q : ℚ) : (q.floor : ℤ) = ⌊q⌋ := by
  rw [Rat.floor_def', Rat.floor_def]

lemma roundHalfEven_bounds (q : ℚ) :
    ⌊q⌋ ≤ roundHalfEven q ∧ roundHalfEven q ≤ ⌊q⌋ + 1 := by
  unfold roundHalfEven
  rw [rat_floor_eq_floor]
  split_ifs <;> omega

lemma roundHalfEven_intCast (n : ℤ) : roundHalfEven (n : ℚ) = n := by
  unfold roundHalfEven
  rw [rat_floor_eq_floor, Int.floor_intCast]
  simp

lemma dictGet_dictSet (m : List (String × MetaVal)) (k : String) (v : MetaVal) :
    dictGet (dictSet m k v) k = some v := by
  unfold dictSet
  by_cases hany : m.any (fun p => p.1 = k)
  · rw [if_pos hany]
    induction m with
    | nil => simp at hany
    | cons p rest ih =>
      rcases p with ⟨k0, v0⟩
      by_cases hp : k0 = k
      · rw [List.map_cons]
        simp only [hp, if_pos rfl]
        simp [dictGet]
      · rw [List.map_cons]
        simp only [if_neg hp]
        have hrest : rest.any (fun p => p.1 = k) = true := by
          simp only [List.any_cons] at hany
          rcases Bool.or_eq_true_iff.mp hany with h | h
          · exact absurd (by simpa using h) hp
          · exact h
        simpa [dictGet, hp] using ih hrest
  · rw [if_neg hany]
    induction m with
    | nil => simp [dictGet]
    | cons p rest ih =>
      rcases p with ⟨k0, v0⟩
      simp only [List.any_cons, Bool.or_eq_true_iff, not_or] at hany
      have hp : ¬ k0 = k := by simpa using hany.1
      simpa [dictGet, hp] using ih (by simpa using hany.2)

lemma process_single_record_ok_status (cfg : Config) (nowIso : String)
    (r : DataRecord) (h : (process_single_record cfg nowIso r).2 = none) :
    (process_single_record cfg nowIso r).1.status = Status.completed := by
  unfold process_single_record at h ⊢
  rcases hrun : runSteps cfg nowIso cfg.processing_steps
      { r with status := Status.processing } with ⟨r2, e⟩
  cases e <;> simp [hrun] at h ⊢

lemma collectResults_eq (stats : Stats)
    (l : List (DataRecord × Option StepError)) :
    collectResults stats l =
      (⟨stats.processed + (l.countP fun x => x.2.isNone),
        stats.failed + (l.countP fun x => x.2.isSome)⟩,
       l.filterMap fun x =>
        match x.2 with
        | none => some x.1
        | some _ => none) := by
  induction l generalizing stats with
  | nil => simp [collectResults]
  | cons x rest ih =>
    rcases x with ⟨r, e⟩
    cases e with
    | none =>
      simp only [collectResults, ih, List.countP_cons, List.filterMap_cons]
      refine Prod.ext ?_ (by simp)
      simp [Stats.mk.injEq]
      omega
    | some err =>
      simp only [collectResults, ih, List.countP_cons, List.filterMap_cons]
      refine Prod.ext ?_ (by simp)
      simp [Stats.mk.injEq]
      omega

lemma filterMap_eq_map_of_forall {α β : Type} (l : List α) (f : α → Option β)
    (g : α → β) (h : ∀ a ∈ l, f a = some (g a)) : l.filterMap f = l.map g := by
  induction l with
  | nil => simp
  | cons a rest ih =>
    rw [List.filterMap_cons, h a (List.mem_cons_self a rest), List.map_cons,
      ih fun b hb => h b (List.mem_cons_of_mem a hb)]

/-! Claim theorems. -/

/-- C1: a batch whose concurrent processing does not finish before the
configured timeout (the `asyncio.TimeoutError` branch of `process_batch`)
yields an empty result list, regardless of the records in the batch and of
how many of them would have succeeded. -/
theorem process_batch_timeout_empty (cfg : Config) (nowIso : String)
    (stats : Stats) (records : List DataRecord) :
    (process_batch cfg nowIso true stats records).2 = [] := by
  simp [process_batch]

/-- C10: a batch call that ends in a whole-batch timeout leaves the
statistics counters exactly as they were before the call: the per-result
accounting loop never runs in the `TimeoutError` branch. -/
theorem process_batch_timeout_stats_unchanged (cfg : Config) (nowIso : String)
    (stats : Stats) (records : List DataRecord) :
    (process_batch cfg nowIso true stats records).1 = stats := by
  simp [process_batch]

/-- C8: for every counter state (including both counters zero right after
construction) and every runtime, `success_rate` and `records_per_second`
are total: each denominator is clamped to at least 1, so the divisions are
by a nonzero quantity and the results are finite rationals (at zero counts
both rates are 0, not infinity or NaN). -/
theorem statistics_never_divide_by_zero (p f : ℕ) (rt : ℚ) :
    1 ≤ max ((p : ℚ) + (f : ℚ)) 1 ∧
    success_rate ⟨p, f⟩ * max ((p : ℚ) + (f : ℚ)) 1 = (p : ℚ) ∧
    1 ≤ max rt 1 ∧
    records_per_second ⟨p, f⟩ rt * max rt 1 = (p : ℚ) ∧
    success_rate ⟨0, 0⟩ = 0 ∧
    records_per_second ⟨0, 0⟩ rt = 0 := by
  have h1 : (1 : ℚ) ≤ max ((p : ℚ) + (f : ℚ)) 1 := le_max_right _ _
  have h2 : (1 : ℚ) ≤ max rt 1 := le_max_right _ _
  have h1ne : max ((p : ℚ) + (f : ℚ)) 1 ≠ 0 := by positivity
  have h2ne : max rt 1 ≠ 0 := by
    intro h
    rw [h] at h2
    norm_num at h2
  refine ⟨h1, ?_, h2, ?_, ?_, ?_⟩
  · exact div_mul_cancel₀ _ h1ne
  · exact div_mul_cancel₀ _ h2ne
  · simp [success_rate]
  · simp [records_per_second]

lemma required_tags_all_iff (cfg : Config) (r : DataRecord) :
    (cfg.validation_rules.required_tags.all fun tag => r.tags.contains tag) = true ↔
      ∀ t ∈ cfg.validation_rules.required_tags, t ∈ r.tags := by
  rw [List.all_eq_true]
  constructor
  · intro h t ht
    exact List.elem_iff.mp (h t ht)
  · intro h t ht
    exact List.elem_iff.mpr (h t ht)

/-- C4: the validate step raises exactly when the record's value lies
outside `[min_value, max_value]` or some entry of `required_tags` is missing
from its tags; when the value is in range and all required tags are present
it succeeds and returns the record unchanged. -/
theorem validate_record_spec (cfg : Config) (r : DataRecord) :
    ((∃ e, validate_record cfg r = Except.error e) ↔
      ¬ ((cfg.validation_rules.min_value ≤ r.value ∧
          r.value ≤ cfg.validation_rules.max_value) ∧
         ∀ t ∈ cfg.validation_rules.required_tags, t ∈ r.tags)) ∧
    (((cfg.validation_rules.min_value ≤ r.value ∧
       r.value ≤ cfg.validation_rules.max_value) ∧
      ∀ t ∈ cfg.validation_rules.required_tags, t ∈ r.tags) →
     validate_record cfg r = Except.ok r) := by
  have hok : ∀ h1 : cfg.validation_rules.min_value ≤ r.value ∧
        r.value ≤ cfg.validation_rules.max_value,
      (∀ t ∈ cfg.validation_rules.required_tags, t ∈ r.tags) →
      validate_record cfg r = Except.ok r := by
    intro h1 h2
    simp only [validate_record]
    rw [if_neg (not_not_intro h1),
      if_neg (not_not_intro ((required_tags_all_iff cfg r).mpr h2))]
  refine ⟨?_, fun h => hok h.1 h.2⟩
  by_cases h1 : cfg.validation_rules.min_value ≤ r.value ∧
      r.value ≤ cfg.validation_rules.max_value
  · by_cases h2 : ∀ t ∈ cfg.validation_rules.required_tags, t ∈ r.tags
    · rw [hok h1 h2]
      constructor
      · rintro ⟨e, he⟩
        simp at he
      · intro hn
        exact absurd ⟨h1, h2⟩ hn
    · have hv : validate_record cfg r = Except.error
          (StepError.missingRequiredTags
            (cfg.validation_rules.required_tags.filter
              fun tag => ¬ r.tags.contains tag)) := by
        simp only [validate_record]
        rw [if_neg (not_not_intro h1),
          if_pos (fun hc => h2 ((required_tags_all_iff cfg r).mp hc))]
      rw [hv]
      simp [h1, h2]
  · have hv : validate_record cfg r = Except.error
        (StepError.valueOutOfRange r.value) := by
      simp only [validate_record]
      rw [if_pos h1]
    rw [hv]
    simp [h1]

/-- Witness for C4 at concrete inputs: a record with value 5000 under the
default rules is rejected, and a record with value 50 carrying both required
tags passes unchanged. -/
theorem validate_record_spec_witness :
    (∃ e, validate_record default_config
      ⟨"b", 0, 5000, [], Status.pending, ["source", "type"]⟩ = Except.error e) ∧
    validate_record default_config
      ⟨"a", 0, 50, [], Status.pending, ["source", "type"]⟩ =
      Except.ok ⟨"a", 0, 50, [], Status.pending, ["source", "type"]⟩ := by
  constructor
  · exact (validate_record_spec default_config
      ⟨"b", 0, 5000, [], Status.pending, ["source", "type"]⟩).1.mpr (by decide)
  · exact (validate_record_spec default_config
      ⟨"a", 0, 50, [], Status.pending, ["source", "type"]⟩).2 (by decide)

/-- C5: the normalize step maps a value above 100 to
`round(100 * (1 + (v - 100) / 900), 2)`, leaves a value at or below 100
unchanged, and in both cases sets `metadata["normalized"] = True`. -/
theorem normalize_value_spec (r : DataRecord) :
    (100 < r.value →
      (normalize_value r).value = round2 (100 * (1 + (r.value - 100) / 900))) ∧
    (r.value ≤ 100 → (normalize_value r).value = r.value) ∧
    dictGet (normalize_value r).metadata "normalized" =
      some (MetaVal.bool true) := by
  refine ⟨?_, ?_, ?_⟩
  · intro h
    simp only [normalize_value]
    rw [if_pos h]
  · intro h
    simp only [normalize_value]
    rw [if_neg (not_lt.mpr h)]
  · exact dictGet_dictSet _ _ _

/-- Witness for C5: at value 550 the normalized value is
`round(100 * (1 + 450 / 900), 2) = 150`, and the `normalized` flag is set;
at value 50 the value is untouched. -/
theorem normalize_value_spec_witness :
    (normalize_value ⟨"w5", 0, 550, [], Status.pending, []⟩).value =
      round2 (100 * (1 + ((550 : ℚ) - 100) / 900)) ∧
    round2 (100 * (1 + ((550 : ℚ) - 100) / 900)) = 150 ∧
    (normalize_value ⟨"v5", 0, 50, [], Status.pending, []⟩).value = 50 ∧
    dictGet (normalize_value ⟨"w5", 0, 550, [], Status.pending, []⟩).metadata
      "normalized" = some (MetaVal.bool true) := by
  refine ⟨(normalize_value_spec ⟨"w5", 0, 550, [], Status.pending, []⟩).1
      (by norm_num), ?_,
    (normalize_value_spec ⟨"v5", 0, 50, [], Status.pending, []⟩).2.1
      (by norm_num),
    (normalize_value_spec ⟨"w5", 0, 550, [], Status.pending, []⟩).2.2⟩
  with_unfolding_all decide

/-- C9: a step name outside the fixed registry
{validate, normalize, categorize, enrich} resolves to nothing and is
silently skipped by the step loop: it raises no error and leaves the record
exactly as the surrounding resolvable steps leave it. -/
theorem unknown_step_skipped (cfg : Config) (nowIso : String) (name : String)
    (pre post : List String) (r : DataRecord)
    (h1 : name ≠ "validate") (h2 : name ≠ "normalize")
    (h3 : name ≠ "categorize") (h4 : name ≠ "enrich") :
    processors name = none ∧
    runSteps cfg nowIso (pre ++ name :: post) r =
      runSteps cfg nowIso (pre ++ post) r := by
  have hnone : processors name = none := by
    simp only [processors, if_neg h2, if_neg h3, if_neg h1, if_neg h4]
  refine ⟨hnone, ?_⟩
  induction pre generalizing r with
  | nil => simp [runSteps, hnone]
  | cons a as ih =>
    simp only [List.cons_append, runSteps]
    rcases hpa : processors a with _ | p
    · exact ih r
    · dsimp only
      rcases hpr : p cfg nowIso r with e | r2
      · rfl
      · exact ih r2

/-- Witness for C9: the unregistered step name `"bogus"` resolves to nothing
and running `["bogus"]` equals running no steps at all. -/
theorem unknown_step_skipped_witness :
    ("bogus" : String) ≠ "validate" ∧ ("bogus" : String) ≠ "normalize" ∧
    ("bogus" : String) ≠ "categorize" ∧ ("bogus" : String) ≠ "enrich" ∧
    (processors "bogus" = none ∧
      runSteps default_config "t" (["bogus"] ++ [])
        ⟨"w9", 0, 1, [], Status.pending, []⟩ =
      runSteps default_config "t" ([] ++ [])
        ⟨"w9", 0, 1, [], Status.pending, []⟩) :=
  ⟨by decide, by decide, by decide, by decide,
    unknown_step_skipped default_config "t" "bogus" [] []
      ⟨"w9", 0, 1, [], Status.pending, []⟩
      (by decide) (by decide) (by decide) (by decide)⟩

/-- C6 counterexample: the claim "for every v in (100, 1000] the normalized
value lies in (100, 200]" fails at v = 100.01: the exact rescaled value
100.00111... rounds to two decimal places as exactly 100, which is not
strictly above 100. -/
theorem normalize_range_counterexample :
    100 < (10001 / 100 : ℚ) ∧ (10001 / 100 : ℚ) ≤ 1000 ∧
    (normalize_value ⟨"c6", 0, 10001 / 100, [], Status.pending, []⟩).value
      = 100 ∧
    ¬ (100 <
      (normalize_value ⟨"c6", 0, 10001 / 100, [], Status.pending, []⟩).value) := by
  with_unfolding_all decide

/-- C6 amended: for every v in (100, 1000], the value produced by the
normalize step lies in [100, 200] (rounding to two decimals can bring a
value just above 100 down to exactly 100, so the lower end is closed). -/
theorem normalize_range_amended (r : DataRecord) (h1 : 100 < r.value)
    (h2 : r.value ≤ 1000) :
    100 ≤ (normalize_value r).value ∧ (normalize_value r).value ≤ 200 := by
  have hval : (normalize_value r).value =
      round2 (100 * (1 + (r.value - 100) / 900)) := by
    simp only [normalize_value]
    rw [if_pos h1]
  set x : ℚ := 100 * (1 + (r.value - 100) / 900) with hx
  have hxe : x = 100 + 100 * ((r.value - 100) / 900) := by rw [hx]; ring
  have hx_lo : 100 < x := by
    have hd : 0 < (r.value - 100) / 900 := div_pos (by linarith) (by norm_num)
    linarith
  have hx_hi : x ≤ 200 := by
    have hd : (r.value - 100) / 900 ≤ 1 := by
      rw [div_le_one (by norm_num : (0:ℚ) < 900)]
      linarith
    linarith
  have hfloor_lo : (10000 : ℤ) ≤ ⌊x * 100⌋ := by
    rw [Int.le_floor]
    push_cast
    nlinarith
  have hrb := roundHalfEven_bounds (x * 100)
  have h_lo_z : (10000 : ℤ) ≤ roundHalfEven (x * 100) := le_trans hfloor_lo hrb.1
  have h_hi_z : roundHalfEven (x * 100) ≤ 20000 := by
    rcases lt_or_eq_of_le (show x * 100 ≤ 20000 by nlinarith) with hlt | heq
    · have hfl : ⌊x * 100⌋ < 20000 := by
        apply Int.floor_lt.mpr
        push_cast
        exact hlt
      omega
    · have hcast : x * 100 = ((20000 : ℤ) : ℚ) := by
        rw [heq]
        norm_num
      rw [hcast, roundHalfEven_intCast]
  rw [hval]
  unfold round2
  constructor
  · rw [le_div_iff₀ (by norm_num : (0:ℚ) < 100)]
    have hc : ((10000 : ℤ) : ℚ) ≤ (roundHalfEven (x * 100) : ℚ) :=
      Int.cast_le.mpr h_lo_z
    push_cast at hc ⊢
    linarith
  · rw [div_le_iff₀ (by norm_num : (0:ℚ) < 100)]
    have hc : ((roundHalfEven (x * 100) : ℤ) : ℚ) ≤ ((20000 : ℤ) : ℚ) :=
      Int.cast_le.mpr h_hi_z
    push_cast at hc ⊢
    linarith

/-- Witness for the amended C6: at v = 550 the normalized value is 150,
inside [100, 200]. -/
theorem normalize_range_amended_witness :
    (100 : ℚ) < 550 ∧ (550 : ℚ) ≤ 1000 ∧
    100 ≤ (normalize_value ⟨"w6", 0, 550, [], Status.pending, []⟩).value ∧
    (normalize_value ⟨"w6", 0, 550, [], Status.pending, []⟩).value ≤ 200 :=
  ⟨by norm_num, by norm_num,
    normalize_range_amended ⟨"w6", 0, 550, [], Status.pending, []⟩
      (by norm_num) (by norm_num)⟩

/-- C7: for every record with a non-negative value, the categorize step
assigns exactly one of the categories low (v < 30), medium (30 ≤ v < 70) or
high (v ≥ 70), stores the category name under `metadata["category"]`, and
appends the tag `category:<name>` to the record's tags. -/
theorem categorize_value_spec (r : DataRecord) (_h : 0 ≤ r.value) :
    (∃! c : String,
      (r.value < 30 ∧ c = "low") ∨
      (30 ≤ r.value ∧ r.value < 70 ∧ c = "medium") ∨
      (70 ≤ r.value ∧ c = "high")) ∧
    ((r.value < 30 ∧ categoryOf r.value = "low") ∨
     (30 ≤ r.value ∧ r.value < 70 ∧ categoryOf r.value = "medium") ∨
     (70 ≤ r.value ∧ categoryOf r.value = "high")) ∧
    dictGet (categorize_value r).metadata "category" =
      some (MetaVal.str (categoryOf r.value)) ∧
    (categorize_value r).tags = r.tags ++ ["category:" ++ categoryOf r.value] := by
  have hmeta : dictGet (categorize_value r).metadata "category" =
      some (MetaVal.str (categoryOf r.value)) := dictGet_dictSet _ _ _
  have htags : (categorize_value r).tags =
      r.tags ++ ["category:" ++ categoryOf r.value] := rfl
  rcases lt_or_le r.value 30 with h30 | h30
  · refine ⟨⟨"low", Or.inl ⟨h30, rfl⟩, ?_⟩, Or.inl ⟨h30, ?_⟩, hmeta, htags⟩
    · rintro c (⟨_, rfl⟩ | ⟨h2, _, _⟩ | ⟨h2, _⟩)
      · rfl
      · exact absurd h30 (not_lt.mpr h2)
      · exact absurd h30 (not_lt.mpr (le_trans (by norm_num) h2))
    · simp [categoryOf, h30]
  · rcases lt_or_le r.value 70 with h70 | h70
    · refine ⟨⟨"medium", Or.inr (Or.inl ⟨h30, h70, rfl⟩), ?_⟩,
        Or.inr (Or.inl ⟨h30, h70, ?_⟩), hmeta, htags⟩
      · rintro c (⟨h2, _⟩ | ⟨_, _, rfl⟩ | ⟨h2, _⟩)
        · exact absurd h2 (not_lt.mpr h30)
        · rfl
        · exact absurd h70 (not_lt.mpr h2)
      · simp [categoryOf, not_lt.mpr h30, h70]
    · refine ⟨⟨"high", Or.inr (Or.inr ⟨h70, rfl⟩), ?_⟩,
        Or.inr (Or.inr ⟨h70, ?_⟩), hmeta, htags⟩
      · rintro c (⟨h2, _⟩ | ⟨_, h2, _⟩ | ⟨_, rfl⟩)
        · exact absurd h2 (not_lt.mpr h30)
        · exact absurd h2 (not_lt.mpr h70)
        · rfl
      · simp [categoryOf, not_lt.mpr h30, not_lt.mpr h70]

/-- Witness for C7 at value 50: the unique category is medium, the metadata
entry is set and the tag `category:medium` is appended. -/
theorem categorize_value_spec_witness :
    0 ≤ (50 : ℚ) ∧
    ((∃! c : String,
      ((50 : ℚ) < 30 ∧ c = "low") ∨
      (30 ≤ (50 : ℚ) ∧ (50 : ℚ) < 70 ∧ c = "medium") ∨
      (70 ≤ (50 : ℚ) ∧ c = "high")) ∧
    (((50 : ℚ) < 30 ∧ categoryOf 50 = "low") ∨
     (30 ≤ (50 : ℚ) ∧ (50 : ℚ) < 70 ∧ categoryOf 50 = "medium") ∨
     (70 ≤ (50 : ℚ) ∧ categoryOf 50 = "high")) ∧
    dictGet (categorize_value ⟨"w7", 0, 50, [], Status.pending, []⟩).metadata
      "category" = some (MetaVal.str (categoryOf 50)) ∧
    (categorize_value ⟨"w7", 0, 50, [], Status.pending, []⟩).tags =
      [] ++ ["category:" ++ categoryOf 50]) :=
  ⟨by norm_num,
    categorize_value_spec ⟨"w7", 0, 50, [], Status.pending, []⟩ (by norm_num)⟩

lemma process_single_record_default_ok (nowIso : String) (r : DataRecord)
    (h1 : (0 : ℚ) ≤ r.value) (h2 : r.value ≤ 1000)
    (h3 : "source" ∈ r.tags) (h4 : "type" ∈ r.tags) :
    (process_single_record default_config nowIso r).2 = none := by
  have pv : processors "validate" =
      some (fun cfg _ r => validate_record cfg r) := rfl
  have pn : processors "normalize" =
      some (fun _ _ r => Except.ok (normalize_value r)) := rfl
  have pc : processors "categorize" =
      some (fun _ _ r => Except.ok (categorize_value r)) := rfl
  have pe : processors "enrich" =
      some (fun _ nowIso r => Except.ok (enrich_metadata nowIso r)) := rfl
  have hv : validate_record default_config
      { r with status := Status.processing } =
      Except.ok { r with status := Status.processing } := by
    have hall : ∀ t ∈ default_config.validation_rules.required_tags,
        t ∈ ({ r with status := Status.processing } : DataRecord).tags := by
      intro t ht
      have hcase : t = "source" ∨ t = "type" := by
        simpa [default_config] using ht
      rcases hcase with rfl | rfl
      · exact h3
      · exact h4
    simp only [validate_record]
    rw [if_neg (not_not_intro ⟨h1, h2⟩),
      if_neg (not_not_intro ((required_tags_all_iff default_config _).mpr hall))]
  have hrun : runSteps default_config nowIso default_config.processing_steps
      { r with status := Status.processing } =
      (enrich_metadata nowIso (categorize_value (normalize_value
        { r with status := Status.processing })), none) := by
    show runSteps default_config nowIso
      ["validate", "normalize", "categorize", "enrich"]
      { r with status := Status.processing } = _
    simp only [runSteps, pv, pn, pc, pe, hv]
  simp only [process_single_record]
  rw [hrun]

/-- C3: a batch of records that all satisfy the default validation rules
(value within `[min_value, max_value]`, all required tags present),
processed without hitting the deadline, yields exactly one output record per
input, `processed` grows by the batch size and `failed` is untouched. -/
theorem all_valid_batch_spec (nowIso : String) (stats : Stats)
    (records : List DataRecord)
    (h : ∀ r ∈ records,
      (default_config.validation_rules.min_value ≤ r.value ∧
       r.value ≤ default_config.validation_rules.max_value) ∧
      ∀ t ∈ default_config.validation_rules.required_tags, t ∈ r.tags) :
    (process_batch default_config nowIso false stats records).2.length
      = records.length ∧
    (process_batch default_config nowIso false stats records).1.processed
      = stats.processed + records.length ∧
    (process_batch default_config nowIso false stats records).1.failed
      = stats.failed := by
  have hnone : ∀ r ∈ records,
      (process_single_record default_config nowIso r).2 = none := by
    intro r hr
    refine process_single_record_default_ok nowIso r (h r hr).1.1 (h r hr).1.2
      ((h r hr).2 "source" (by simp [default_config]))
      ((h r hr).2 "type" (by simp [default_config]))
  have hpb : process_batch default_config nowIso false stats records =
      collectResults stats
        (records.map (process_single_record default_config nowIso)) := by
    simp [process_batch]
  have hcount1 : ((records.map
      (process_single_record default_config nowIso)).countP
      fun x => x.2.isNone) = records.length := by
    rw [List.countP_map]
    refine List.countP_eq_length.mpr ?_
    intro r hr
    simp only [Function.comp_apply, hnone r hr, Option.isNone_none]
  have hcount2 : ((records.map
      (process_single_record default_config nowIso)).countP
      fun x => x.2.isSome) = 0 := by
    rw [List.countP_map]
    refine List.countP_eq_zero.mpr ?_
    intro r hr
    simp only [Function.comp_apply, hnone r hr, Option.isSome_none]
    exact Bool.false_ne_true
  have hfm : ((records.map
      (process_single_record default_config nowIso)).filterMap fun x =>
        match x.2 with
        | none => some x.1
        | some _ => none) =
      records.map fun r => (process_single_record default_config nowIso r).1 := by
    have heach : ∀ a ∈ records.map (process_single_record default_config nowIso),
        (match a.2 with
          | none => some a.1
          | some _ => none : Option DataRecord) = some a.1 := by
      intro a ha
      obtain ⟨r, hr, rfl⟩ := List.mem_map.mp ha
      rcases hfr : process_single_record default_config nowIso r with ⟨r2, e2⟩
      have h2 := hnone r hr
      rw [hfr] at h2
      subst h2
      rfl
    rw [filterMap_eq_map_of_forall _ _ _ heach, List.map_map]
    rfl
  rw [hpb, collectResults_eq]
  refine ⟨?_, ?_, ?_⟩
  · simp only [hfm, List.length_map]
  · simp only [hcount1]
  · simp only [hcount2, Nat.add_zero]

/-- Witness for C3: two valid records under the default rules, starting from
counters (3, 4): the batch returns 2 records, `processed` becomes 5 and
`failed` stays 4. -/
theorem all_valid_batch_spec_witness :
    (∀ r ∈ ([⟨"a", 0, 50, [], Status.pending, ["source", "type"]⟩,
             ⟨"b", 0, 550, [], Status.pending, ["source", "type"]⟩] :
        List DataRecord),
      (default_config.validation_rules.min_value ≤ r.value ∧
       r.value ≤ default_config.validation_rules.max_value) ∧
      ∀ t ∈ default_config.validation_rules.required_tags, t ∈ r.tags) ∧
    ((process_batch default_config "t" false ⟨3, 4⟩
        [⟨"a", 0, 50, [], Status.pending, ["source", "type"]⟩,
         ⟨"b", 0, 550, [], Status.pending, ["source", "type"]⟩]).2.length = 2 ∧
     (process_batch default_config "t" false ⟨3, 4⟩
        [⟨"a", 0, 50, [], Status.pending, ["source", "type"]⟩,
         ⟨"b", 0, 550, [], Status.pending, ["source", "type"]⟩]).1.processed
       = 3 + 2 ∧
     (process_batch default_config "t" false ⟨3, 4⟩
        [⟨"a", 0, 50, [], Status.pending, ["source", "type"]⟩,
         ⟨"b", 0, 550, [], Status.pending, ["source", "type"]⟩]).1.failed = 4) :=
  ⟨by decide,
    all_valid_batch_spec "t" ⟨3, 4⟩
      [⟨"a", 0, 50, [], Status.pending, ["source", "type"]⟩,
       ⟨"b", 0, 550, [], Status.pending, ["source", "type"]⟩] (by decide)⟩

/-- C2: in a batch that beats the deadline in which exactly one unit raises
(the middle record `rk`, ending in exception `e` with in-place state `rk2`)
and every other unit succeeds, `process_batch` returns one record per
successful unit (N-1 records), `failed` grows by exactly 1, `processed`
grows by the number of successes, every returned record has status
`Completed`, and afterwards the failing record is marked `Failed` while
every other record of the batch ends `Completed`, unaffected by the
failure. -/
theorem single_failure_batch_spec (cfg : Config) (nowIso : String)
    (stats : Stats) (pre post : List DataRecord) (rk rk2 : DataRecord)
    (e : StepError)
    (hk : process_single_record cfg nowIso rk = (rk2, some e))
    (hpre : ∀ r ∈ pre, (process_single_record cfg nowIso r).2 = none)
    (hpost : ∀ r ∈ post, (process_single_record cfg nowIso r).2 = none) :
    process_batch cfg nowIso false stats (pre ++ rk :: post) =
      (⟨stats.processed + (pre.length + post.length), stats.failed + 1⟩,
       (pre ++ post).map fun r => (process_single_record cfg nowIso r).1) ∧
    (process_batch cfg nowIso false stats (pre ++ rk :: post)).2.length =
      (pre ++ rk :: post).length - 1 ∧
    (∀ r2 ∈ (process_batch cfg nowIso false stats (pre ++ rk :: post)).2,
      r2.status = Status.completed) ∧
    batch_records_after cfg nowIso (pre ++ rk :: post) =
      (pre.map fun r => (process_single_record cfg nowIso r).1) ++
        ({ rk2 with status := Status.failed } ::
          post.map fun r => (process_single_record cfg nowIso r).1) ∧
    ∀ r ∈ pre ++ post,
      (process_single_record cfg nowIso r).1.status = Status.completed := by
  have hcomp : ∀ r ∈ pre ++ post,
      (process_single_record cfg nowIso r).1.status = Status.completed := by
    intro r hr
    rcases List.mem_append.mp hr with hmem | hmem
    · exact process_single_record_ok_status cfg nowIso r (hpre r hmem)
    · exact process_single_record_ok_status cfg nowIso r (hpost r hmem)
  have hcnt : ∀ l : List DataRecord,
      (∀ r ∈ l, (process_single_record cfg nowIso r).2 = none) →
      ((l.map (process_single_record cfg nowIso)).countP
        fun x => x.2.isNone) = l.length ∧
      ((l.map (process_single_record cfg nowIso)).countP
        fun x => x.2.isSome) = 0 ∧
      ((l.map (process_single_record cfg nowIso)).filterMap fun x =>
        match x.2 with
        | none => some x.1
        | some _ => none) =
        l.map fun r => (process_single_record cfg nowIso r).1 := by
    intro l hl
    refine ⟨?_, ?_, ?_⟩
    · rw [List.countP_map]
      refine List.countP_eq_length.mpr ?_
      intro r hr
      simp only [Function.comp_apply, hl r hr, Option.isNone_none]
    · rw [List.countP_map]
      refine List.countP_eq_zero.mpr ?_
      intro r hr
      simp only [Function.comp_apply, hl r hr, Option.isSome_none]
      exact Bool.false_ne_true
    · have heach : ∀ a ∈ l.map (process_single_record cfg nowIso),
          (match a.2 with
            | none => some a.1
            | some _ => none : Option DataRecord) = some a.1 := by
        intro a ha
        obtain ⟨r, hr, rfl⟩ := List.mem_map.mp ha
        rcases hfr : process_single_record cfg nowIso r with ⟨r2, e2⟩
        have h2 := hl r hr
        rw [hfr] at h2
        subst h2
        rfl
      rw [filterMap_eq_map_of_forall _ _ _ heach, List.map_map]
      rfl
  have hpre3 := hcnt pre hpre
  have hpost3 := hcnt post hpost
  have hmain : process_batch cfg nowIso false stats (pre ++ rk :: post) =
      (⟨stats.processed + (pre.length + post.length), stats.failed + 1⟩,
       (pre ++ post).map fun r => (process_single_record cfg nowIso r).1) := by
    have hstep : process_batch cfg nowIso false stats (pre ++ rk :: post) =
        collectResults stats
          ((pre ++ rk :: post).map (process_single_record cfg nowIso)) := by
      simp [process_batch]
    rw [hstep, collectResults_eq, List.map_append, List.map_cons, hk]
    simp only [List.countP_append, List.countP_cons, List.filterMap_append,
      List.filterMap_cons, Option.isNone_some, Option.isSome_some,
      hpre3.1, hpre3.2.1, hpre3.2.2, hpost3.1, hpost3.2.1, hpost3.2.2]
    refine Prod.ext ?_ ?_
    · simp [Stats.mk.injEq]
    · simp [List.map_append]
  refine ⟨hmain, ?_, ?_, ?_, hcomp⟩
  · rw [hmain]
    simp only [List.length_map, List.length_append, List.length_cons]
    omega
  · rw [hmain]
    intro r2 hr2
    obtain ⟨r, hr, rfl⟩ := List.mem_map.mp hr2
    exact hcomp r hr
  · unfold batch_records_after
    rw [List.map_append, List.map_cons]
    congr 1
    · refine List.map_congr_left ?_
      intro r hr
      rcases hfr : process_single_record cfg nowIso r with ⟨r2, e2⟩
      have h2 := hpre r hr
      rw [hfr] at h2
      subst h2
      simp [hfr]
    · congr 1
      · simp only [hk]
      · refine List.map_congr_left ?_
        intro r hr
        rcases hfr : process_single_record cfg nowIso r with ⟨r2, e2⟩
        have h2 := hpost r hr
        rw [hfr] at h2
        subst h2
        simp [hfr]

set_option maxRecDepth 4000 in
/-- Witness for C2 with one passing and one failing record: the batch
[valid "a", invalid "bad"] returns 1 record, counters go from (0, 0) to
(1, 1), the output is completed, and "bad" is left marked `Failed`. -/
theorem single_failure_batch_spec_witness :
    (process_single_record default_config "t"
      ⟨"bad", 0, 5000, [], Status.pending, ["source", "type"]⟩ =
      (⟨"bad", 0, 5000, [], Status.processing, ["source", "type"]⟩,
       some (StepError.valueOutOfRange 5000))) ∧
    (∀ r ∈ ([⟨"a", 0, 50, [], Status.pending, ["source", "type"]⟩] :
        List DataRecord),
      (process_single_record default_config "t" r).2 = none) ∧
    (process_batch default_config "t" false ⟨0, 0⟩
        [⟨"a", 0, 50, [], Status.pending, ["source", "type"]⟩,
         ⟨"bad", 0, 5000, [], Status.pending, ["source", "type"]⟩] =
      (⟨1, 1⟩,
       [⟨"a", 0, 50, [], Status.pending, ["source", "type"]⟩].map
         fun r => (process_single_record default_config "t" r).1)) ∧
    (process_batch default_config "t" false ⟨0, 0⟩
        [⟨"a", 0, 50, [], Status.pending, ["source", "type"]⟩,
         ⟨"bad", 0, 5000, [], Status.pending, ["source", "type"]⟩]).2.length
      = 1 ∧
    (∀ r2 ∈ (process_batch default_config "t" false ⟨0, 0⟩
        [⟨"a", 0, 50, [], Status.pending, ["source", "type"]⟩,
         ⟨"bad", 0, 5000, [], Status.pending, ["source", "type"]⟩]).2,
      r2.status = Status.completed) ∧
    batch_records_after default_config "t"
        [⟨"a", 0, 50, [], Status.pending, ["source", "type"]⟩,
         ⟨"bad", 0, 5000, [], Status.pending, ["source", "type"]⟩] =
      ([⟨"a", 0, 50, [], Status.pending, ["source", "type"]⟩].map
        fun r => (process_single_record default_config "t" r).1) ++
        [⟨"bad", 0, 5000, [], Status.failed, ["source", "type"]⟩] ∧
    ∀ r ∈ ([⟨"a", 0, 50, [], Status.pending, ["source", "type"]⟩] :
        List DataRecord),
      (process_single_record default_config "t" r).1.status
        = Status.completed :=
  ⟨by decide, by with_unfolding_all decide,
    single_failure_batch_spec default_config "t" ⟨0, 0⟩
      [⟨"a", 0, 50, [], Status.pending, ["source", "type"]⟩] []
      ⟨"bad", 0, 5000, [], Status.pending, ["source", "type"]⟩
      ⟨"bad", 0, 5000, [], Status.processing, ["source", "type"]⟩
      (StepError.valueOutOfRange 5000)
      (by decide) (by with_unfolding_all decide)
      (by decide)⟩

/-- Witness for C1: a timed-out batch of two pending records returns the
empty list. -/
theorem process_batch_timeout_empty_witness :
    (process_batch default_config "t" true ⟨3, 4⟩
      [⟨"a", 0, 50, [], Status.pending, ["source", "type"]⟩,
       ⟨"b", 0, 60, [], Status.pending, ["source", "type"]⟩]).2 = [] :=
  process_batch_timeout_empty default_config "t" ⟨3, 4⟩
    [⟨"a", 0, 50, [], Status.pending, ["source", "type"]⟩,
     ⟨"b", 0, 60, [], Status.pending, ["source", "type"]⟩]

/-- Witness for C10: a timed-out batch leaves the counters (3, 4) as they
were. -/
theorem process_batch_timeout_stats_unchanged_witness :
    (process_batch default_config "t" true ⟨3, 4⟩
      [⟨"a", 0, 50, [], Status.pending, ["source", "type"]⟩]).1 = ⟨3, 4⟩ :=
  process_batch_timeout_stats_unchanged default_config "t" ⟨3, 4⟩
    [⟨"a", 0, 50, [], Status.pending, ["source", "type"]⟩]

/-- Witness for C8 at the freshly-constructed state (both counters zero,
zero runtime): both denominators are clamped to 1 and both rates are 0. -/
theorem statistics_never_divide_by_zero_witness :
    1 ≤ max ((0 : ℚ) + (0 : ℚ)) 1 ∧
    success_rate ⟨0, 0⟩ * max ((0 : ℚ) + (0 : ℚ)) 1 = (0 : ℚ) ∧
    1 ≤ max (0 : ℚ) 1 ∧
    records_per_second ⟨0, 0⟩ 0 * max (0 : ℚ) 1 = (0 : ℚ) ∧
    success_rate ⟨0, 0⟩ = 0 ∧
    records_per_second ⟨0, 0⟩ 0 = 0 :=
  statistics_never_divide_by_zero 0 0 0

end DataProcessorSpec
